import Mathlib

/-!
# Verification of the `Classic` histogram filter (`src/histogram.c`)

Shallow embedding of `classicInit` (gamma table builder), of the
`arAllFramesReady` branch of `classicGetFrame` (row histogram renderer) and of
`classicCreate` (format validation, as the list of host calls it makes).

Conventions of the embedding.

* A plane buffer is a map from byte offsets (relative to the pointer the host
  hands out) to the stored byte, a natural number; a `uint8_t` store reduces
  the stored value modulo 256.
* C `int` values that can be negative or indeterminate (`E167`, the histogram
  bins, the arguments of `MIN`) are integers.  A histogram bin never exceeds the
  plane width, itself a C `int`, so the increments never overflow.  The one
  unchecked addition on a host-supplied `int`, `d.vi.width += 256`, is reduced
  to 32 bits (`wrapInt32`).
* The `double` expression `16.5 + 219 * (1 - exp(i * K))` is evaluated exactly
  (over the reals); `gammaFloor_eq_floor` relates the integer search used here
  to the real-valued formula and `gammaFloor_robust` shows the truncation is
  unchanged by any absolute error up to 1/1000.
-/

namespace Histogram

/-! ## Definitions -/

/-- The macro `MIN(a, b)`, that is `((a) < (b)) ? (a) : (b)`, on C `int`s. -/
def MIN (a b : Int) : Int := if a < b then a else b

/-- The fields of `ClassicData` that `classicInit` writes and the renderer
reads: `int E167` and `uint8_t exptab[256]` (indexed by position). -/
structure ClassicData where
  E167 : Int
  exptab : Nat → Nat

/-- The loop `for (i = lo; i < hi; i++) body` as a state transformer. -/
def forLoop {σ : Type} (lo hi : Nat) (body : Nat → σ → σ) (s : σ) : σ :=
  (List.range' lo (hi - lo)).foldl (fun s i => body i s) s

/-- Truncation of `16.5 + 219 * (1 - exp(i * K))` with `K = log(0.5/219)/255`,
evaluated exactly.  The expression equals `235.5 - 219 * 438^(-i/255)`, and
`n ≤ 235.5 - 219 * 438^(-i/255)` holds iff `438^255 ≤ (471 - 2n)^255 * 438^i`;
the truncation is the greatest such `n` (it is at most 235). -/
def gammaFloor (i : Nat) : Nat :=
  Nat.findGreatest (fun n => 438 ^ 255 ≤ (471 - 2 * n) ^ 255 * 438 ^ i) 235

/-- The value `(uint8_t)(16.5 + 219 * (1 - exp(i * K)))` stored in `exptab[i]`. -/
def gammaEntry (i : Nat) : Nat := gammaFloor i % 256

/-- One iteration of the loop of `classicInit`: store `exptab[i]`, then record
`i` in `E167` when `exptab[i] <= 235-68`. -/
def classicInitStep (i : Nat) (d : ClassicData) : ClassicData :=
  let d1 : ClassicData := { d with exptab := Function.update d.exptab i (gammaEntry i) }
  if d1.exptab i ≤ 235 - 68 then { d1 with E167 := (i : Int) } else d1

/-- The table builder `classicInit`, acting on the instance data it is handed
(whose `E167` and `exptab` are whatever `malloc` and the copy left there). -/
def classicInit (d : ClassicData) : ClassicData :=
  let d0 : ClassicData := { d with exptab := Function.update d.exptab 0 16 }
  let d1 : ClassicData := forLoop 1 255 classicInitStep d0
  { d1 with exptab := Function.update d1.exptab 255 235 }

/-- A plane buffer: byte offset from the plane pointer to the byte stored there. -/
abbrev Mem := Nat → Nat

/-- The store `p[a] = v` through a `uint8_t *`. -/
def storeByte (m : Mem) (a v : Nat) : Mem :=
  fun b => if b = a then v % 256 else m b

/-- The call `memcpy(dst + dOff, src + sOff, n)`. -/
def memcpy (dst : Mem) (dOff : Nat) (src : Mem) (sOff n : Nat) : Mem :=
  fun a => if dOff ≤ a ∧ a < dOff + n then src (sOff + (a - dOff)) else dst a

/-- The row copy loop: `memcpy(dstp + dst_stride * y, srcp + src_stride * y, src_stride)`
for `y = 0 .. h-1`. -/
def copyRows (srcp : Mem) (src_stride : Nat) (dstp : Mem) (dst_stride h : Nat) : Mem :=
  forLoop 0 h (fun y m => memcpy m (dst_stride * y) srcp (src_stride * y) src_stride) dstp

/-- The destination buffer together with the moving pointer `dstp` (as an
offset from the plane's write pointer). -/
structure Dst where
  mem : Mem
  dstp : Nat

/-- The histogram loop: `int hist[256] = {0}; for (x = 0; x < w; x++) hist[dstp[x]] += 1;`. -/
def buildHist (mem : Mem) (dstp w : Nat) : Nat → Int :=
  forLoop 0 w
    (fun x hist => Function.update hist (mem (dstp + x)) (hist (mem (dstp + x)) + 1))
    (fun _ => 0)

/-- The right-hand side of the assignment to `dstp[x + w]` in the luma column
loop, as a C `int` before the `uint8_t` store, for the bin count `count = hist[x]`. -/
def lumaValue (d : ClassicData) (count : Int) (x : Nat) : Nat :=
  if x < 16 ∨ x = 124 ∨ x > 235 then
    d.exptab (MIN d.E167 count).toNat + 68
  else
    d.exptab (MIN 255 count).toNat

/-- The right-hand side of the assignment to `dstp[(x >> subs) + w]` in the
chroma column loop. -/
def chromaValue (plane x : Nat) : Nat :=
  if x < 16 ∨ x > 235 then
    (if plane = 1 then 200 else 128)
  else if x = 124 then
    (if plane = 1 then 160 else 16)
  else
    128

/-- The body of the luma column loop for column `x`. -/
def lumaStore (d : ClassicData) (hist : Nat → Int) (dstp w x : Nat) (m : Mem) : Mem :=
  if x < 16 ∨ x = 124 ∨ x > 235 then
    storeByte m (dstp + (x + w)) (d.exptab (MIN d.E167 (hist x)).toNat + 68)
  else
    storeByte m (dstp + (x + w)) (d.exptab (MIN 255 (hist x)).toNat)

/-- One iteration of the luma row loop: build the histogram of the row at
`dstp`, draw the 256 strip columns, advance `dstp` by `dst_stride`. -/
def lumaRow (d : ClassicData) (w dst_stride : Nat) (s : Dst) : Dst :=
  let hist := buildHist s.mem s.dstp w
  { mem := forLoop 0 256 (lumaStore d hist s.dstp w) s.mem
    dstp := s.dstp + dst_stride }

/-- The body of the chroma column loop for the loop variable `x`. -/
def chromaStore (plane subs dstp w x : Nat) (m : Mem) : Mem :=
  if x < 16 ∨ x > 235 then
    storeByte m (dstp + ((x >>> subs) + w)) (if plane = 1 then 200 else 128)
  else if x = 124 then
    storeByte m (dstp + ((x >>> subs) + w)) (if plane = 1 then 160 else 16)
  else
    storeByte m (dstp + ((x >>> subs) + w)) 128

/-- The chroma column loop `for (...; x < 256; x += factor)` with
`factor = 1 << subs`, entered with loop variable `x`. -/
def chromaCols (plane subs dstp w : Nat) (x : Nat) (m : Mem) : Mem :=
  if x < 256 then
    chromaCols plane subs dstp w (x + (1 <<< subs)) (chromaStore plane subs dstp w x m)
  else m
termination_by 256 - x
decreasing_by
  have hpos : 0 < 1 <<< subs := by
    rw [Nat.one_shiftLeft]
    exact Nat.pos_pow_of_pos subs (by decide)
  omega

/-- One iteration of the chroma row loop. -/
def chromaRow (plane subs w dst_stride : Nat) (s : Dst) : Dst :=
  { mem := chromaCols plane subs s.dstp w 0 s.mem
    dstp := s.dstp + dst_stride }

/-- The body of the plane loop of `classicGetFrame` for one plane: row copy,
then the luma overlay (`plane == 0`) or the chroma overlay. -/
def renderPlane (d : ClassicData) (plane subs : Nat) (srcp : Mem) (src_stride : Nat)
    (dstp : Mem) (dst_stride h w : Nat) : Mem :=
  let copied := copyRows srcp src_stride dstp dst_stride h
  if plane = 0 then
    (forLoop 0 h (fun _ s => lumaRow d w dst_stride s) { mem := copied, dstp := 0 }).mem
  else
    (forLoop 0 h (fun _ s => chromaRow plane subs w dst_stride s) { mem := copied, dstp := 0 }).mem

/-- The histogram the luma row loop of `renderPlane` builds in iteration `y`,
that is, after the row copy and the iterations for rows `0 .. y-1`. -/
def lumaHist (d : ClassicData) (srcp : Mem) (src_stride : Nat) (dstp : Mem)
    (dst_stride h w y : Nat) : Nat → Int :=
  let s := forLoop 0 y (fun _ s => lumaRow d w dst_stride s)
    { mem := copyRows srcp src_stride dstp dst_stride h, dstp := 0 }
  buildHist s.mem s.dstp w

/-- What the host reports for one plane of a frame: pointer contents, stride,
height and width. -/
structure Plane where
  data : Mem
  stride : Nat
  height : Nat
  width : Nat

/-- The fields of `VSFormat` the renderer uses. -/
structure VSFormat where
  numPlanes : Nat
  subSamplingW : Nat

/-- The `arAllFramesReady` branch of `classicGetFrame`: `dst` is the freshly
allocated frame (arbitrary contents), every plane is rendered in turn from
`src`; height and width of each plane are taken from the source frame. -/
def classicGetFrame (d : ClassicData) (fi : VSFormat) (src dst : Nat → Plane) : Nat → Plane :=
  forLoop 0 fi.numPlanes
    (fun plane f => Function.update f plane
      { f plane with
        data := renderPlane d plane fi.subSamplingW (src plane).data (src plane).stride
          (f plane).data (f plane).stride (src plane).height (src plane).width })
    dst

/-- The geometry the host guarantees for a plane of width `w` drawn with a
strip of `strip` columns: `w ≤ src_stride ≤ dst_stride` and
`w + strip ≤ dst_stride`. -/
def Geometry (w src_stride dst_stride strip : Nat) : Prop :=
  w ≤ src_stride ∧ src_stride ≤ dst_stride ∧ w + strip ≤ dst_stride

/-- The sample types of `VapourSynth.h` (`VSSampleType`). -/
inductive VSSampleType where
  | stInteger
  | stFloat
  deriving DecidableEq

/-- The `VSFormat` record as `classicCreate` reads it: the fields the renderer
uses and, in addition, `sampleType` and `bitsPerSample`. -/
structure VSFormatDesc extends VSFormat where
  sampleType : VSSampleType
  bitsPerSample : Int

/-- The fields of `VSVideoInfo` that `classicCreate` reads or writes; `format`
is `none` for the null pointer of a clip whose format can change midstream.
`width` and `height` are C `int`s: the values the host stores there lie in
`[-2^31, 2^31)`. -/
structure VSVideoInfo where
  format : Option VSFormatDesc
  width : Int
  height : Int

/-- Node references in `classicCreate`: `clip` is what `propGetNode` returned
for the input (`d.node`), `filter` is what `createFilter` returned (`cref`). -/
inductive NodeRef where
  | clip
  | filter
  deriving DecidableEq

/-- The host calls `classicCreate` makes after it has read the input node and
its video info; `createFilter` carries the `node` and `vi` of the instance
data it is handed. -/
inductive HostCall where
  | setError (msg : String)
  | freeNode (ref : NodeRef)
  | createFilter (name : String) (node : NodeRef) (vi : VSVideoInfo)
  | propSetNode (key : String) (ref : NodeRef)

/-- The test of `classicCreate`:
`!d.vi.format || d.vi.format->sampleType != stInteger || d.vi.format->bitsPerSample != 8`. -/
def rejectsFormat (vi : VSVideoInfo) : Bool :=
  match vi.format with
  | none => true
  | some f => f.sampleType != VSSampleType.stInteger || f.bitsPerSample != 8

/-- A result of 32-bit `int` arithmetic, reduced to `[-2^31, 2^31)` as the
compiled code does (two's complement wraparound). -/
def wrapInt32 (z : Int) : Int :=
  (z + 2147483648) % 4294967296 - 2147483648

/-- The host calls of `classicCreate`, in order, for an input clip with video
info `vi`.  The instance data copied to the heap holds `d.node` and `d.vi`
after `d.vi.width += 256`, an addition on a C `int` with no range check;
`classicInit` later declares that `vi` as the output with `setVideoInfo`. -/
def classicCreate (vi : VSVideoInfo) : List HostCall :=
  if rejectsFormat vi then
    [HostCall.setError ("Classic: only constant format 8bit integer input supported"),
      HostCall.freeNode NodeRef.clip]
  else
    [HostCall.createFilter ("Classic") NodeRef.clip
        { vi with width := wrapInt32 (vi.width + 256) },
      HostCall.propSetNode ("clip") NodeRef.filter,
      HostCall.freeNode NodeRef.filter]

/-- The rejection condition in the words of the specification: the source
format is undefined, or the sample type is not integer, or bits-per-sample
is not 8. -/
def UnsupportedFormat (vi : VSVideoInfo) : Prop :=
  vi.format = none ∨
    ∃ f, vi.format = some f ∧ (f.sampleType ≠ VSSampleType.stInteger ∨ f.bitsPerSample ≠ 8)

/-! ## Loops -/

theorem forLoop_self {σ : Type} (lo : Nat) (body : Nat → σ → σ) (s : σ) :
    forLoop lo lo body s = s := by
  simp [forLoop]

theorem forLoop_succ {σ : Type} (lo hi : Nat) (body : Nat → σ → σ) (s : σ) (h : lo ≤ hi) :
    forLoop lo (hi + 1) body s = body hi (forLoop lo hi body s) := by
  unfold forLoop
  have e : hi + 1 - lo = (hi - lo) + 1 := by omega
  rw [e, List.range'_1_concat, List.foldl_append]
  have e2 : lo + (hi - lo) = hi := by omega
  simp [e2]

/-- Loop invariant rule for `forLoop`. -/
theorem forLoop_invariant {σ : Type} (P : Nat → σ → Prop) (lo hi : Nat) (body : Nat → σ → σ)
    (s : σ) (hle : lo ≤ hi) (h0 : P lo s)
    (hstep : ∀ i t, lo ≤ i → i < hi → P i t → P (i + 1) (body i t)) :
    P hi (forLoop lo hi body s) := by
  induction hi with
  | zero =>
    have : lo = 0 := by omega
    subst this
    simpa [forLoop_self] using h0
  | succ n ih =>
    rcases Nat.lt_or_ge lo (n + 1) with hlt | hge
    · have hln : lo ≤ n := by omega
      rw [forLoop_succ lo n body s hln]
      exact hstep n _ hln (by omega)
        (ih hln (fun i t h1 h2 hp => hstep i t h1 (by omega) hp))
    · have : lo = n + 1 := by omega
      subst this
      simpa [forLoop_self] using h0

/-! ## The gamma table -/

theorem exp_pow_255 (i : ℕ) :
    Real.exp ((i : ℝ) * (Real.log (0.5 / 219) / 255)) ^ 255 = ((438 : ℝ) ^ i)⁻¹ := by
  rw [← Real.exp_nat_mul]
  have e : ((255 : ℕ) : ℝ) * ((i : ℝ) * (Real.log (0.5 / 219) / 255))
      = (i : ℝ) * Real.log (0.5 / 219) := by
    push_cast
    ring
  rw [e, Real.exp_nat_mul, Real.exp_log (by norm_num)]
  rw [← inv_pow]
  norm_num

/-- Comparing `exp(i * K)` with a fraction is a comparison of integers. -/
theorem exp_le_div_iff (i p q : ℕ) (hq : 0 < q) :
    Real.exp ((i : ℝ) * (Real.log (0.5 / 219) / 255)) ≤ (p : ℝ) / q
      ↔ q ^ 255 ≤ p ^ 255 * 438 ^ i := by
  have hq' : (0 : ℝ) < q := by exact_mod_cast hq
  rw [← pow_le_pow_iff_left₀ (Real.exp_nonneg _) (div_nonneg (Nat.cast_nonneg p) hq'.le)
    (by norm_num : (255 : ℕ) ≠ 0), exp_pow_255, div_pow, inv_eq_one_div,
    div_le_div_iff₀ (by positivity) (by positivity), one_mul]
  exact_mod_cast Iff.rfl

theorem le_gammaExpr_iff (i n : ℕ) (hn : n ≤ 235) :
    (n : ℝ) ≤ 16.5 + 219 * (1 - Real.exp ((i : ℝ) * (Real.log (0.5 / 219) / 255)))
      ↔ 438 ^ 255 ≤ (471 - 2 * n) ^ 255 * 438 ^ i := by
  rw [← exp_le_div_iff i (471 - 2 * n) 438 (by norm_num)]
  have hc : ((471 - 2 * n : ℕ) : ℝ) = 471 - 2 * (n : ℝ) := by
    rw [Nat.cast_sub (by omega)]
    push_cast
    ring
  rw [hc, le_div_iff₀ (by norm_num)]
  push_cast
  constructor <;> intro h <;> linarith

theorem gammaFloor_le (i : ℕ) : gammaFloor i ≤ 235 :=
  Nat.findGreatest_le 235

theorem gammaFloor_spec (i : ℕ) :
    438 ^ 255 ≤ (471 - 2 * gammaFloor i) ^ 255 * 438 ^ i := by
  have h0 : 438 ^ 255 ≤ (471 - 2 * 0) ^ 255 * 438 ^ i :=
    calc 438 ^ 255 ≤ 471 ^ 255 := Nat.pow_le_pow_left (by norm_num) 255
      _ = 471 ^ 255 * 1 := (Nat.mul_one _).symm
      _ ≤ 471 ^ 255 * 438 ^ i := Nat.mul_le_mul_left _ (Nat.one_le_pow _ _ (by norm_num))
  exact Nat.findGreatest_spec (P := fun n => 438 ^ 255 ≤ (471 - 2 * n) ^ 255 * 438 ^ i)
    (Nat.zero_le 235) h0

theorem gammaFloor_ge (i : ℕ) : 16 ≤ gammaFloor i := by
  have h16 : 438 ^ 255 ≤ (471 - 2 * 16) ^ 255 * 438 ^ i :=
    calc 438 ^ 255 ≤ 439 ^ 255 := Nat.pow_le_pow_left (by norm_num) 255
      _ = 439 ^ 255 * 1 := (Nat.mul_one _).symm
      _ ≤ 439 ^ 255 * 438 ^ i := Nat.mul_le_mul_left _ (Nat.one_le_pow _ _ (by norm_num))
  exact Nat.le_findGreatest (P := fun n => 438 ^ 255 ≤ (471 - 2 * n) ^ 255 * 438 ^ i)
    (by norm_num) h16

theorem gammaFloor_mono {i j : ℕ} (h : i ≤ j) : gammaFloor i ≤ gammaFloor j :=
  Nat.findGreatest_mono_left
    (fun _ hn => le_trans hn
      (Nat.mul_le_mul_left _ (Nat.pow_le_pow_right (by norm_num) h))) 235

/-- The integer search computes the truncation of the real-valued expression. -/
theorem gammaFloor_eq_floor (i : ℕ) :
    ⌊(16.5 : ℝ) + 219 * (1 - Real.exp ((i : ℝ) * (Real.log (0.5 / 219) / 255)))⌋
      = (gammaFloor i : ℤ) := by
  rw [Int.floor_eq_iff]
  constructor
  · have h := (le_gammaExpr_iff i _ (gammaFloor_le i)).2 (gammaFloor_spec i)
    exact_mod_cast h
  · rcases (gammaFloor_le i).lt_or_eq with hlt | heq
    · have hnot := Nat.findGreatest_is_greatest
        (P := fun n => 438 ^ 255 ≤ (471 - 2 * n) ^ 255 * 438 ^ i) (n := 235)
        (k := gammaFloor i + 1) (Nat.lt_succ_self _) hlt
      have h := not_le.1 (mt (le_gammaExpr_iff i (gammaFloor i + 1) hlt).1 hnot)
      push_cast at h ⊢
      linarith
    · rw [heq]
      have hpos := Real.exp_pos ((i : ℝ) * (Real.log (0.5 / 219) / 255))
      push_cast
      linarith

theorem gammaEntry_eq (i : ℕ) : gammaEntry i = gammaFloor i := by
  unfold gammaEntry
  exact Nat.mod_eq_of_lt (lt_of_le_of_lt (gammaFloor_le i) (by norm_num))

theorem gammaEntry_mono {i j : ℕ} (h : i ≤ j) : gammaEntry i ≤ gammaEntry j := by
  rw [gammaEntry_eq, gammaEntry_eq]
  exact gammaFloor_mono h

theorem gammaFloor_49 : gammaFloor 49 = 167 := by decide

theorem gammaFloor_50 : gammaFloor 50 = 169 := by decide

/-- Exact margins: for `1 ≤ i ≤ 254` the real value stays at least `1/1000`
away from the integers on both sides of its truncation. -/
theorem gammaFloor_margin : ∀ i < 255, 1 ≤ i →
    219000 ^ 255 ≤ (235499 - 1000 * gammaFloor i) ^ 255 * 438 ^ i ∧
    ¬ 219000 ^ 255 ≤ (234501 - 1000 * gammaFloor i) ^ 255 * 438 ^ i := by
  decide!

/-- The truncation stored in `exptab[i]` (`1 ≤ i ≤ 254`) does not change when
the evaluated expression carries an absolute error of at most `1/1000`, far
above the rounding error of the `double` evaluation. -/
theorem gammaFloor_robust (i : ℕ) (h1 : 1 ≤ i) (h2 : i ≤ 254) (e : ℝ) (he : |e| ≤ 1 / 1000) :
    ⌊(16.5 : ℝ) + 219 * (1 - Real.exp ((i : ℝ) * (Real.log (0.5 / 219) / 255))) + e⌋
      = (gammaFloor i : ℤ) := by
  obtain ⟨hlo, hhi⟩ := gammaFloor_margin i (by omega) h1
  have hg := gammaFloor_le i
  rw [← exp_le_div_iff i _ 219000 (by norm_num)] at hlo hhi
  have c1 : ((235499 - 1000 * gammaFloor i : ℕ) : ℝ) = 235499 - 1000 * (gammaFloor i : ℝ) := by
    rw [Nat.cast_sub (by omega)]
    push_cast
    ring
  have c2 : (234501 : ℝ) - 1000 * (gammaFloor i : ℝ)
      ≤ ((234501 - 1000 * gammaFloor i : ℕ) : ℝ) := by
    have h : (234501 : ℕ) ≤ (234501 - 1000 * gammaFloor i) + 1000 * gammaFloor i :=
      le_tsub_add
    have h' : ((234501 : ℕ) : ℝ)
        ≤ (((234501 - 1000 * gammaFloor i) + 1000 * gammaFloor i : ℕ) : ℝ) :=
      Nat.cast_le.2 h
    push_cast at h'
    linarith
  rw [c1, le_div_iff₀ (by norm_num)] at hlo
  rw [le_div_iff₀ (by norm_num), not_le] at hhi
  push_cast at hlo hhi
  obtain ⟨he1, he2⟩ := abs_le.1 he
  rw [Int.floor_eq_iff]
  push_cast
  constructor <;> linarith

/-! ## The table builder -/

theorem classicInitStep_exptab (i : ℕ) (d : ClassicData) :
    (classicInitStep i d).exptab = Function.update d.exptab i (gammaEntry i) := by
  unfold classicInitStep
  dsimp only
  split <;> rfl

theorem classicInitStep_E167 (i : ℕ) (d : ClassicData) :
    (classicInitStep i d).E167 = if gammaEntry i ≤ 167 then (i : ℤ) else d.E167 := by
  unfold classicInitStep
  simp only [Function.update_same]
  have e : 235 - 68 = 167 := by norm_num
  rw [e]
  split <;> rfl

/-- State of the scan of `classicInit` when the loop variable has reached `n`. -/
theorem classicInit_loop (d : ClassicData) (n : ℕ) (hn : 1 ≤ n) :
    (∀ j, (forLoop 1 n classicInitStep d).exptab j
        = if 1 ≤ j ∧ j < n then gammaEntry j else d.exptab j) ∧
    (((forLoop 1 n classicInitStep d).E167 = d.E167 ∧
        ∀ j, 1 ≤ j → j < n → 167 < gammaEntry j) ∨
      ∃ e : ℕ, (forLoop 1 n classicInitStep d).E167 = (e : ℤ) ∧ 1 ≤ e ∧ e < n ∧
        gammaEntry e ≤ 167 ∧ ∀ j, e < j → j < n → 167 < gammaEntry j) := by
  refine forLoop_invariant
    (fun n s => (∀ j, s.exptab j = if 1 ≤ j ∧ j < n then gammaEntry j else d.exptab j) ∧
      ((s.E167 = d.E167 ∧ ∀ j, 1 ≤ j → j < n → 167 < gammaEntry j) ∨
        ∃ e : ℕ, s.E167 = (e : ℤ) ∧ 1 ≤ e ∧ e < n ∧
          gammaEntry e ≤ 167 ∧ ∀ j, e < j → j < n → 167 < gammaEntry j))
    1 n classicInitStep d hn ?_ ?_
  · refine ⟨fun j => ?_, Or.inl ⟨rfl, fun j h1 h2 => ?_⟩⟩
    · rw [if_neg (by omega)]
    · omega
  · rintro i t hi1 _ ⟨htab, hE⟩
    refine ⟨fun j => ?_, ?_⟩
    · rw [classicInitStep_exptab]
      by_cases hj : j = i
      · subst hj
        rw [Function.update_same, if_pos (by omega)]
      · rw [Function.update_noteq hj, htab j]
        by_cases hc : 1 ≤ j ∧ j < i
        · rw [if_pos hc, if_pos (by omega)]
        · rw [if_neg hc, if_neg (by omega)]
    · rw [classicInitStep_E167]
      by_cases hg : gammaEntry i ≤ 167
      · rw [if_pos hg]
        exact Or.inr ⟨i, rfl, hi1, Nat.lt_succ_self i, hg, fun j h1 h2 => by omega⟩
      · rw [if_neg hg]
        rcases hE with ⟨he, hall⟩ | ⟨e, he, he1, he2, he3, hall⟩
        · refine Or.inl ⟨he, fun j h1 h2 => ?_⟩
          rcases Nat.lt_or_ge j i with hlt | hge
          · exact hall j h1 hlt
          · have : j = i := by omega
            subst this
            omega
        · refine Or.inr ⟨e, he, he1, by omega, he3, fun j h1 h2 => ?_⟩
          rcases Nat.lt_or_ge j i with hlt | hge
          · exact hall j h1 hlt
          · have : j = i := by omega
            subst this
            omega

/-- The table `classicInit` leaves in the instance data. -/
theorem classicInit_exptab (d : ClassicData) (j : ℕ) :
    (classicInit d).exptab j
      = if j = 0 then 16 else if j < 255 then gammaEntry j
        else if j = 255 then 235 else d.exptab j := by
  unfold classicInit
  dsimp only
  by_cases h255 : j = 255
  · subst h255
    simp
  · rw [Function.update_noteq h255, (classicInit_loop _ 255 (by norm_num)).1 j]
    by_cases h0 : j = 0
    · subst h0
      simp
    · rw [if_neg h0]
      by_cases hlt : j < 255
      · rw [if_pos ⟨by omega, hlt⟩, if_pos hlt]
      · rw [if_neg (by omega), if_neg hlt, if_neg h255]
        exact Function.update_noteq h0 16 d.exptab

/-- The clamp threshold `classicInit` records is 49, whatever `E167` held before. -/
theorem classicInit_E167 (d : ClassicData) : (classicInit d).E167 = 49 := by
  have hloop := (classicInit_loop
    { d with exptab := Function.update d.exptab 0 16 } 255 (by norm_num)).2
  have h49 : gammaEntry 49 = 167 := by rw [gammaEntry_eq, gammaFloor_49]
  have h50 : gammaEntry 50 = 169 := by rw [gammaEntry_eq, gammaFloor_50]
  have hE : (classicInit d).E167
      = (forLoop 1 255 classicInitStep
          { d with exptab := Function.update d.exptab 0 16 }).E167 := by
    unfold classicInit
    dsimp only
  rw [hE]
  rcases hloop with ⟨_, hall⟩ | ⟨e, he, he1, he2, he3, hall⟩
  · have := hall 49 (by norm_num) (by norm_num)
    omega
  · rw [he]
    have hle : e ≤ 49 := by
      by_contra hc
      have := gammaEntry_mono (show 50 ≤ e by omega)
      omega
    have hge : 49 ≤ e := by
      by_contra hc
      have := hall 49 (by omega) (by norm_num)
      omega
    have : e = 49 := by omega
    subst this
    rfl

/-! ## Memory -/

theorem row_lt (ds y n c : ℕ) (hy : y < n) (hc : c < ds) : ds * y + c < ds * n := by
  have h1 : ds * (y + 1) ≤ ds * n := Nat.mul_le_mul_left ds hy
  rw [Nat.mul_succ] at h1
  omega

/-- The row copy leaves the first `w` bytes of every source row in the
destination row. -/
theorem copyRows_spec (srcp : Mem) (ss : ℕ) (dstp : Mem) (ds h w : ℕ)
    (hws : w ≤ ss) (hwd : w ≤ ds) (y x : ℕ) (hy : y < h) (hx : x < w) :
    copyRows srcp ss dstp ds h (ds * y + x) = srcp (ss * y + x) := by
  unfold copyRows
  have key := forLoop_invariant
    (fun n (m : Mem) => ∀ y x, y < n → x < w → m (ds * y + x) = srcp (ss * y + x))
    0 h (fun y m => memcpy m (ds * y) srcp (ss * y) ss) dstp (Nat.zero_le h)
    (fun y x hy _ => absurd hy (Nat.not_lt_zero y))
    (fun n m _ _ ih y x hy hx => by
      simp only [memcpy]
      rcases Nat.lt_or_ge y n with hlt | hge
      · have h1 := row_lt ds y n x hlt (by omega)
        rw [if_neg (by omega)]
        exact ih y x hlt hx
      · have hyn : y = n := by omega
        subst hyn
        rw [if_pos ⟨by omega, by omega⟩]
        congr 1
        omega)
  exact key y x hy hx

/-- A row loop whose body draws a strip of `strip` columns right of column `w`
of the row at `dstp` and then advances `dstp` by the stride: final pointer
and final contents of every row. -/
theorem rows_spec (row : Dst → Dst) (val : Mem → ℕ → ℕ → ℕ) (w ds strip : ℕ)
    (hgeom : w + strip ≤ ds)
    (hdstp : ∀ s, (row s).dstp = s.dstp + ds)
    (hmem : ∀ s a, (row s).mem a
      = if s.dstp + w ≤ a ∧ a < s.dstp + w + strip
        then val s.mem s.dstp (a - (s.dstp + w)) else s.mem a)
    (hval : ∀ m1 m2 p, (∀ c, c < w → m1 (p + c) = m2 (p + c)) → val m1 p = val m2 p)
    (m0 : Mem) (h : ℕ) :
    (forLoop 0 h (fun _ s => row s) { mem := m0, dstp := 0 }).dstp = ds * h ∧
    ∀ y c, c < ds →
      (forLoop 0 h (fun _ s => row s) { mem := m0, dstp := 0 }).mem (ds * y + c)
        = if y < h ∧ w ≤ c ∧ c < w + strip then val m0 (ds * y) (c - w)
          else m0 (ds * y + c) := by
  refine forLoop_invariant
    (fun n (s : Dst) => s.dstp = ds * n ∧ ∀ y c, c < ds →
      s.mem (ds * y + c)
        = if y < n ∧ w ≤ c ∧ c < w + strip then val m0 (ds * y) (c - w)
          else m0 (ds * y + c))
    0 h (fun _ s => row s) { mem := m0, dstp := 0 } (Nat.zero_le h) ?_ ?_
  · refine ⟨by simp, fun y c _ => ?_⟩
    rw [if_neg (by omega)]
  · rintro n s _ _ ⟨hp, hm⟩
    refine ⟨by rw [hdstp, hp, Nat.mul_succ], fun y c hc => ?_⟩
    rw [hmem, hp]
    rcases Nat.lt_trichotomy y n with hlt | heq | hgt
    · have h1 := row_lt ds y n c hlt hc
      rw [if_neg (by omega), hm y c hc]
      by_cases hcc : w ≤ c ∧ c < w + strip
      · rw [if_pos ⟨hlt, hcc⟩, if_pos ⟨by omega, hcc⟩]
      · rw [if_neg (fun hh => hcc hh.2), if_neg (fun hh => hcc hh.2)]
    · subst heq
      by_cases hcc : w ≤ c ∧ c < w + strip
      · rw [if_pos ⟨by omega, by omega⟩, if_pos ⟨Nat.lt_succ_self y, hcc⟩]
        have hv : val s.mem (ds * y) = val m0 (ds * y) :=
          hval _ _ _ (fun c' hc' => by
            rw [hm y c' (by omega), if_neg (by omega)])
        rw [hv]
        congr 1
        omega
      · rw [if_neg (by omega), if_neg (fun hh => hcc hh.2), hm y c hc,
          if_neg (fun hh => hcc hh.2)]
    · have h1 : ds * (n + 1) ≤ ds * y := Nat.mul_le_mul_left ds hgt
      rw [Nat.mul_succ] at h1
      rw [if_neg (by omega), if_neg (by omega), hm y c hc, if_neg (by omega)]

/-! ## The histogram -/

theorem buildHist_succ (m : Mem) (p n : ℕ) :
    buildHist m p (n + 1)
      = Function.update (buildHist m p n) (m (p + n)) (buildHist m p n (m (p + n)) + 1) := by
  unfold buildHist
  rw [forLoop_succ 0 n _ _ (Nat.zero_le n)]

/-- Each bin holds the number of samples of the row with that value. -/
theorem buildHist_eq_card (m : Mem) (p w v : ℕ) :
    buildHist m p w v = (((Finset.range w).filter (fun j => m (p + j) = v)).card : ℤ) := by
  induction w with
  | zero => simp [buildHist, forLoop_self]
  | succ n ih =>
    rw [buildHist_succ, Finset.range_succ, Finset.filter_insert]
    by_cases hv : m (p + n) = v
    · subst hv
      rw [Function.update_same, if_pos rfl, Finset.card_insert_of_not_mem (by simp), ih]
      push_cast
      rfl
    · rw [Function.update_noteq (Ne.symm hv), if_neg hv, ih]

/-- The histogram only depends on the `w` samples of the row. -/
theorem buildHist_congr (m1 m2 : Mem) (p1 p2 w : ℕ)
    (h : ∀ c, c < w → m1 (p1 + c) = m2 (p2 + c)) :
    buildHist m1 p1 w = buildHist m2 p2 w := by
  funext v
  rw [buildHist_eq_card, buildHist_eq_card]
  congr 2
  apply Finset.filter_congr
  intro j hj
  rw [h j (Finset.mem_range.1 hj)]

theorem lumaStore_eq (d : ClassicData) (hist : ℕ → ℤ) (p w x : ℕ) (m : Mem) :
    lumaStore d hist p w x m = storeByte m (p + (x + w)) (lumaValue d (hist x) x) := by
  unfold lumaStore lumaValue
  split <;> rfl

/-- The luma column loop after `n` columns. -/
theorem lumaCols_spec (d : ClassicData) (hist : ℕ → ℤ) (p w : ℕ) (m : Mem) (n a : ℕ) :
    forLoop 0 n (lumaStore d hist p w) m a
      = if p + w ≤ a ∧ a < p + w + n
        then lumaValue d (hist (a - (p + w))) (a - (p + w)) % 256 else m a := by
  induction n with
  | zero =>
    rw [forLoop_self, if_neg (by omega)]
  | succ n ih =>
    rw [forLoop_succ 0 n _ _ (Nat.zero_le n), lumaStore_eq]
    unfold storeByte
    by_cases ha : a = p + (n + w)
    · subst ha
      rw [if_pos rfl, if_pos ⟨by omega, by omega⟩]
      have e : p + (n + w) - (p + w) = n := by omega
      rw [e]
    · rw [if_neg ha, ih]
      by_cases hc : p + w ≤ a ∧ a < p + w + n
      · rw [if_pos hc, if_pos ⟨hc.1, by omega⟩]
      · rw [if_neg hc, if_neg (by omega)]

theorem lumaRow_dstp (d : ClassicData) (w ds : ℕ) (s : Dst) :
    (lumaRow d w ds s).dstp = s.dstp + ds := rfl

theorem lumaRow_mem (d : ClassicData) (w ds : ℕ) (s : Dst) (a : ℕ) :
    (lumaRow d w ds s).mem a
      = if s.dstp + w ≤ a ∧ a < s.dstp + w + 256
        then lumaValue d (buildHist s.mem s.dstp w (a - (s.dstp + w))) (a - (s.dstp + w)) % 256
        else s.mem a := by
  unfold lumaRow
  dsimp only
  rw [lumaCols_spec]

/-- Contents of the luma plane after `renderPlane`, row by row. -/
theorem renderPlane_luma (d : ClassicData) (subs : ℕ) (srcp : Mem) (ss : ℕ) (dstp : Mem)
    (ds h w : ℕ) (hgeom : w + 256 ≤ ds) (y c : ℕ) (hc : c < ds) :
    renderPlane d 0 subs srcp ss dstp ds h w (ds * y + c)
      = if y < h ∧ w ≤ c ∧ c < w + 256
        then lumaValue d (buildHist (copyRows srcp ss dstp ds h) (ds * y) w (c - w)) (c - w) % 256
        else copyRows srcp ss dstp ds h (ds * y + c) := by
  unfold renderPlane
  rw [if_pos rfl]
  exact (rows_spec (lumaRow d w ds)
    (fun m p x => lumaValue d (buildHist m p w x) x % 256) w ds 256 hgeom
    (lumaRow_dstp d w ds) (lumaRow_mem d w ds)
    (fun m1 m2 p hm => by
      funext x
      show lumaValue d (buildHist m1 p w x) x % 256 = lumaValue d (buildHist m2 p w x) x % 256
      rw [buildHist_congr m1 m2 p p w hm])
    (copyRows srcp ss dstp ds h) h).2 y c hc

/-! ## The chroma overlay -/

theorem chromaStore_eq (plane subs p w x : ℕ) (m : Mem) :
    chromaStore plane subs p w x m
      = storeByte m (p + ((x >>> subs) + w)) (chromaValue plane x) := by
  unfold chromaStore chromaValue
  split
  · rfl
  · split <;> rfl

theorem chromaValue_lt (plane x : ℕ) : chromaValue plane x < 256 := by
  unfold chromaValue
  split_ifs <;> norm_num

theorem le_shiftLeft (k s : ℕ) : k ≤ k <<< s := by
  rw [Nat.shiftLeft_eq]
  exact Nat.le_mul_of_pos_right k (Nat.pos_pow_of_pos s (by decide))

theorem shiftLeft_mono (s : ℕ) {j k : ℕ} (h : j ≤ k) : j <<< s ≤ k <<< s := by
  rw [Nat.shiftLeft_eq, Nat.shiftLeft_eq]
  exact Nat.mul_le_mul_right _ h

theorem shiftLeft_step (k s : ℕ) : k <<< s + 1 <<< s = (k + 1) <<< s := by
  simp only [Nat.shiftLeft_eq]
  ring

/-- The chroma column loop entered with loop variable `k0 << subs`: the
strip column `k ≥ k0` is written exactly when `k << subs < 256`, with the
value decided by `k << subs`. -/
theorem chromaCols_spec (plane subs p w : ℕ) :
    ∀ (n k0 : ℕ), 256 ≤ n + k0 → ∀ (m : Mem) (a : ℕ),
      chromaCols plane subs p w (k0 <<< subs) m a
        = if p + w + k0 ≤ a ∧ (a - (p + w)) <<< subs < 256
          then chromaValue plane ((a - (p + w)) <<< subs) else m a := by
  intro n
  induction n with
  | zero =>
    intro k0 hk m a
    have h1 := le_shiftLeft k0 subs
    rw [chromaCols, if_neg (by omega)]
    by_cases hc : p + w + k0 ≤ a ∧ (a - (p + w)) <<< subs < 256
    · have h2 := shiftLeft_mono subs (show k0 ≤ a - (p + w) by omega)
      omega
    · rw [if_neg hc]
  | succ n ih =>
    intro k0 hk m a
    by_cases hx : k0 <<< subs < 256
    · rw [chromaCols, if_pos hx, shiftLeft_step, ih (k0 + 1) (by omega), chromaStore_eq,
        Nat.shiftLeft_shiftRight]
      unfold storeByte
      by_cases ha : a = p + (k0 + w)
      · subst ha
        have e : p + (k0 + w) - (p + w) = k0 := by omega
        rw [if_neg (by omega), if_pos rfl, e, if_pos ⟨by omega, hx⟩,
          Nat.mod_eq_of_lt (chromaValue_lt _ _)]
      · rw [if_neg ha]
        by_cases hc : p + w + k0 ≤ a ∧ (a - (p + w)) <<< subs < 256
        · rw [if_pos hc, if_pos ⟨by omega, hc.2⟩]
        · rw [if_neg hc, if_neg (fun hh => hc ⟨by omega, hh.2⟩)]
    · rw [chromaCols, if_neg hx]
      by_cases hc : p + w + k0 ≤ a ∧ (a - (p + w)) <<< subs < 256
      · have h2 := shiftLeft_mono subs (show k0 ≤ a - (p + w) by omega)
        omega
      · rw [if_neg hc]

/-- For `subs ≤ 8` the loop variable `k << subs` stays below 256 exactly for
the `256 >> subs` strip columns. -/
theorem shiftLeft_lt_iff (s k : ℕ) (hs : s ≤ 8) : k <<< s < 256 ↔ k < 256 >>> s := by
  rw [Nat.shiftLeft_eq, Nat.shiftRight_eq_div_pow]
  interval_cases s <;> norm_num <;> omega

theorem chromaRow_dstp (plane subs w ds : ℕ) (s : Dst) :
    (chromaRow plane subs w ds s).dstp = s.dstp + ds := rfl

theorem chromaRow_mem (plane subs w ds : ℕ) (hs : subs ≤ 8) (s : Dst) (a : ℕ) :
    (chromaRow plane subs w ds s).mem a
      = if s.dstp + w ≤ a ∧ a < s.dstp + w + 256 >>> subs
        then chromaValue plane ((a - (s.dstp + w)) <<< subs) else s.mem a := by
  unfold chromaRow
  have h := chromaCols_spec plane subs s.dstp w 256 0 (by norm_num) s.mem a
  rw [Nat.zero_shiftLeft] at h
  show chromaCols plane subs s.dstp w 0 s.mem a = _
  rw [h]
  by_cases hc : s.dstp + w ≤ a ∧ a < s.dstp + w + 256 >>> subs
  · rw [if_pos hc, if_pos ⟨by omega, (shiftLeft_lt_iff subs _ hs).2 (by omega)⟩]
  · rw [if_neg hc, if_neg]
    rintro ⟨h1, h2⟩
    have := (shiftLeft_lt_iff subs _ hs).1 h2
    omega

/-- Contents of a chroma plane after `renderPlane`, row by row. -/
theorem renderPlane_chroma (d : ClassicData) (plane subs : ℕ) (srcp : Mem) (ss : ℕ)
    (dstp : Mem) (ds h w : ℕ) (hp : plane ≠ 0) (hs : subs ≤ 8)
    (hgeom : w + 256 >>> subs ≤ ds) (y c : ℕ) (hc : c < ds) :
    renderPlane d plane subs srcp ss dstp ds h w (ds * y + c)
      = if y < h ∧ w ≤ c ∧ c < w + 256 >>> subs
        then chromaValue plane ((c - w) <<< subs)
        else copyRows srcp ss dstp ds h (ds * y + c) := by
  unfold renderPlane
  rw [if_neg hp]
  exact (rows_spec (chromaRow plane subs w ds)
    (fun _ _ k => chromaValue plane (k <<< subs)) w ds (256 >>> subs) hgeom
    (chromaRow_dstp plane subs w ds) (chromaRow_mem plane subs w ds hs)
    (fun _ _ _ _ => rfl)
    (copyRows srcp ss dstp ds h) h).2 y c hc

/-! ## The plane loop -/

/-- The plane loop renders every plane below `numPlanes` from the buffer the
host handed out for it and leaves the other entries alone. -/
theorem classicGetFrame_plane (d : ClassicData) (fi : VSFormat) (src dst : ℕ → Plane) (p : ℕ) :
    classicGetFrame d fi src dst p
      = if p < fi.numPlanes then
          { dst p with
            data := renderPlane d p fi.subSamplingW (src p).data (src p).stride
              (dst p).data (dst p).stride (src p).height (src p).width }
        else dst p := by
  unfold classicGetFrame
  refine forLoop_invariant
    (fun n (f : ℕ → Plane) => ∀ q, f q
      = if q < n then
          { dst q with
            data := renderPlane d q fi.subSamplingW (src q).data (src q).stride
              (dst q).data (dst q).stride (src q).height (src q).width }
        else dst q)
    0 fi.numPlanes _ dst (Nat.zero_le _) ?_ ?_ p
  · intro q
    rw [if_neg (Nat.not_lt_zero q)]
  · intro n f _ _ ih q
    beta_reduce at ih ⊢
    by_cases hq : q = n
    · subst hq
      rw [Function.update_same, if_pos (Nat.lt_succ_self q), ih q,
        if_neg (Nat.lt_irrefl q)]
    · rw [Function.update_noteq hq, ih q]
      by_cases hlt : q < n
      · rw [if_pos hlt, if_pos (by omega)]
      · rw [if_neg hlt, if_neg (by omega)]

theorem classicGetFrame_data (d : ClassicData) (fi : VSFormat) (src dst : ℕ → Plane) (p : ℕ)
    (hp : p < fi.numPlanes) :
    (classicGetFrame d fi src dst p).data
      = renderPlane d p fi.subSamplingW (src p).data (src p).stride
          (dst p).data (dst p).stride (src p).height (src p).width := by
  rw [classicGetFrame_plane, if_pos hp]

/-! ## Values drawn in the luma strip -/

theorem MIN_eq_min (a b : ℤ) : MIN a b = min a b := by
  unfold MIN
  split <;> omega

theorem classicInit_exptab_le (d : ClassicData) (j : ℕ) (hj : j ≤ 255) :
    (classicInit d).exptab j ≤ 235 := by
  rw [classicInit_exptab]
  split_ifs
  · norm_num
  · rw [gammaEntry_eq]
    exact gammaFloor_le j
  · exact le_refl 235
  · omega

theorem classicInit_exptab_le_clamp (d : ClassicData) (j : ℕ) (hj : j ≤ 49) :
    (classicInit d).exptab j ≤ 167 := by
  rw [classicInit_exptab]
  split_ifs
  · norm_num
  · have h := gammaFloor_mono hj
    rw [gammaFloor_49] at h
    rw [gammaEntry_eq]
    exact h
  · omega
  · omega

/-- With the table of `classicInit` the value assigned to a strip byte is at
most 235, so the `uint8_t` store keeps it as it is. -/
theorem lumaValue_classicInit_le (d : ClassicData) (c : ℤ) (x : ℕ) :
    lumaValue (classicInit d) c x ≤ 235 := by
  unfold lumaValue
  rw [classicInit_E167, MIN_eq_min, MIN_eq_min]
  split
  · have h := classicInit_exptab_le_clamp d (min 49 c).toNat (by omega)
    omega
  · exact classicInit_exptab_le d _ (by omega)

/-- The histogram the luma loop builds for row `y` after the row copy is the
histogram of the source row. -/
theorem buildHist_copyRows (srcp : Mem) (ss : ℕ) (dstp : Mem) (ds h w y : ℕ)
    (hws : w ≤ ss) (hwd : w ≤ ds) (hy : y < h) :
    buildHist (copyRows srcp ss dstp ds h) (ds * y) w = buildHist srcp (ss * y) w :=
  buildHist_congr _ _ _ _ w (fun c hc => copyRows_spec srcp ss dstp ds h w hws hwd y c hy hc)

/-- The strip byte of luma row `y`, column `x`, in terms of the source row. -/
theorem renderPlane_luma_strip (d : ClassicData) (subs : ℕ) (srcp : Mem) (ss : ℕ) (dstp : Mem)
    (ds h w : ℕ) (hgeom : Geometry w ss ds 256) (y x : ℕ) (hy : y < h) (hx : x < 256) :
    renderPlane d 0 subs srcp ss dstp ds h w (ds * y + (w + x))
      = lumaValue d
          (((Finset.range w).filter (fun j => srcp (ss * y + j) = x)).card : ℤ) x % 256 := by
  obtain ⟨h1, _, h3⟩ := hgeom
  rw [renderPlane_luma d subs srcp ss dstp ds h w h3 y (w + x) (by omega),
    if_pos ⟨hy, by omega, by omega⟩, Nat.add_sub_cancel_left,
    buildHist_copyRows srcp ss dstp ds h w y h1 (by omega) hy, buildHist_eq_card]

/-- The strip byte of chroma row `y`, strip column `k`. -/
theorem renderPlane_chroma_strip (d : ClassicData) (plane subs : ℕ) (srcp : Mem) (ss : ℕ)
    (dstp : Mem) (ds h w : ℕ) (hp : plane ≠ 0) (hs : subs ≤ 8)
    (hgeom : Geometry w ss ds (256 >>> subs)) (y k : ℕ) (hy : y < h) (hk : k < 256 >>> subs) :
    renderPlane d plane subs srcp ss dstp ds h w (ds * y + (w + k))
      = chromaValue plane (k <<< subs) := by
  obtain ⟨_, _, h3⟩ := hgeom
  rw [renderPlane_chroma d plane subs srcp ss dstp ds h w hp hs h3 y (w + k) (by omega),
    if_pos ⟨hy, by omega, by omega⟩, Nat.add_sub_cancel_left]

/-- The overlay of any plane leaves every column outside the strip as the row
copy left it. -/
theorem renderPlane_outside (d : ClassicData) (plane subs : ℕ) (srcp : Mem) (ss : ℕ)
    (dstp : Mem) (ds h w : ℕ) (hs : subs ≤ 8)
    (hgeom : Geometry w ss ds (if plane = 0 then 256 else 256 >>> subs)) (y c : ℕ)
    (hc : c < ds) (hout : c < w ∨ w + (if plane = 0 then 256 else 256 >>> subs) ≤ c) :
    renderPlane d plane subs srcp ss dstp ds h w (ds * y + c)
      = copyRows srcp ss dstp ds h (ds * y + c) := by
  obtain ⟨_, _, h3⟩ := hgeom
  by_cases hp : plane = 0
  · subst hp
    rw [if_pos rfl] at h3 hout
    rw [renderPlane_luma d subs srcp ss dstp ds h w h3 y c hc, if_neg (by omega)]
  · rw [if_neg hp] at h3 hout
    rw [renderPlane_chroma d plane subs srcp ss dstp ds h w hp hs h3 y c hc,
      if_neg (by omega)]

/-- The histogram built for luma row `y` is the histogram of source row `y`:
the strips drawn for the rows above do not reach into the row. -/
theorem lumaHist_eq (d : ClassicData) (srcp : Mem) (ss : ℕ) (dstp : Mem) (ds h w y : ℕ)
    (hgeom : Geometry w ss ds 256) (hy : y < h) :
    lumaHist d srcp ss dstp ds h w y = buildHist srcp (ss * y) w := by
  obtain ⟨h1, _, h3⟩ := hgeom
  have hrows := rows_spec (lumaRow d w ds)
    (fun m p x => lumaValue d (buildHist m p w x) x % 256) w ds 256 h3
    (lumaRow_dstp d w ds) (lumaRow_mem d w ds)
    (fun m1 m2 p hm => by
      funext x
      show lumaValue d (buildHist m1 p w x) x % 256 = lumaValue d (buildHist m2 p w x) x % 256
      rw [buildHist_congr m1 m2 p p w hm])
    (copyRows srcp ss dstp ds h) y
  unfold lumaHist
  dsimp only
  rw [hrows.1, ← buildHist_copyRows srcp ss dstp ds h w y h1 (by omega) hy]
  apply buildHist_congr
  intro c hc
  rw [hrows.2 y c (by omega), if_neg (by omega)]

/-- The strip byte of luma row `y`, column `x`, from the histogram of the
source row, with the data of `classicInit`. -/
theorem classicGetFrame_luma_strip (d0 : ClassicData) (fi : VSFormat) (src dst : ℕ → Plane)
    (y x : ℕ) (hplanes : 0 < fi.numPlanes)
    (hgeom : Geometry (src 0).width (src 0).stride (dst 0).stride 256)
    (hy : y < (src 0).height) (hx : x < 256) :
    (classicGetFrame (classicInit d0) fi src dst 0).data
        ((dst 0).stride * y + ((src 0).width + x))
      = lumaValue (classicInit d0)
          (buildHist (src 0).data ((src 0).stride * y) (src 0).width x) x := by
  rw [classicGetFrame_data _ _ _ _ 0 hplanes,
    renderPlane_luma_strip _ _ _ _ _ _ _ _ hgeom y x hy hx,
    Nat.mod_eq_of_lt (lt_of_le_of_lt (lumaValue_classicInit_le d0 _ x) (by norm_num)),
    buildHist_eq_card]

theorem buildHist_zero (m : Mem) (p : ℕ) : buildHist m p 0 = fun _ => 0 := by
  unfold buildHist
  rw [forLoop_self]

/-- The histogram of the row `[16, 16, 124, 235]`. -/
theorem buildHist_scenario (m : Mem) (h0 : m 0 = 16) (h1 : m 1 = 16) (h2 : m 2 = 124)
    (h3 : m 3 = 235) (v : ℕ) :
    buildHist m 0 4 v
      = if v = 16 then 2 else if v = 124 then 1 else if v = 235 then 1 else 0 := by
  rw [show (4 : ℕ) = 0 + 1 + 1 + 1 + 1 from rfl, buildHist_succ, buildHist_succ,
    buildHist_succ, buildHist_succ, buildHist_zero]
  simp only [Nat.zero_add, Nat.add_zero, h0, h1, h2, h3, Function.update_apply]
  split_ifs <;> omega

/-! ## Claims -/

/-- C3 (chroma overlay): for a chroma plane `p` (1 or 2) of width `w` with
horizontal subsampling `s ≤ 8`, every row `y < h` and every strip column
`k < 256 >> s`, the byte left at destination column `w + k` is decided by
`x = k << s`: 200 (plane 1) or 128 (plane 2) if `x < 16` or `x > 235`, 160
(plane 1) or 16 (plane 2) if `x = 124`, and 128 otherwise.  No column at or
beyond `w + (256 >> s)` is changed by the overlay in any row. -/
theorem C3_chroma_overlay (d : ClassicData) (fi : VSFormat) (src dst : ℕ → Plane) (p y : ℕ)
    (hp12 : p = 1 ∨ p = 2) (hp : p < fi.numPlanes) (hs : fi.subSamplingW ≤ 8)
    (hgeom : Geometry (src p).width (src p).stride (dst p).stride (256 >>> fi.subSamplingW))
    (hy : y < (src p).height) :
    (∀ k, k < 256 >>> fi.subSamplingW →
      (classicGetFrame d fi src dst p).data ((dst p).stride * y + ((src p).width + k))
        = if k <<< fi.subSamplingW < 16 ∨ k <<< fi.subSamplingW > 235 then
            (if p = 1 then 200 else 128)
          else if k <<< fi.subSamplingW = 124 then
            (if p = 1 then 160 else 16)
          else 128) ∧
    (∀ y' c, (src p).width + 256 >>> fi.subSamplingW ≤ c → c < (dst p).stride →
      (classicGetFrame d fi src dst p).data ((dst p).stride * y' + c)
        = copyRows (src p).data (src p).stride (dst p).data (dst p).stride (src p).height
            ((dst p).stride * y' + c)) := by
  have hp0 : p ≠ 0 := by omega
  rw [classicGetFrame_data _ _ _ _ p hp]
  constructor
  · intro k hk
    rw [renderPlane_chroma_strip d p _ _ _ _ _ _ _ hp0 hs hgeom y k hy hk]
    rfl
  · intro y' c hc1 hc2
    have hg : Geometry (src p).width (src p).stride (dst p).stride
        (if p = 0 then 256 else 256 >>> fi.subSamplingW) := by
      rw [if_neg hp0]
      exact hgeom
    refine renderPlane_outside d p _ _ _ _ _ _ _ hs hg y' c hc2 (Or.inr ?_)
    rw [if_neg hp0]
    exact hc1

/-- C3 at a concrete frame: 4:2:0-style chroma plane 1 of width 2, strip column
`k = 62`, that is `x = 124`, the marker. -/
theorem C3_chroma_overlay_witness :
    (classicGetFrame ⟨0, fun _ => 0⟩ ⟨3, 1⟩
        (fun _ => ⟨fun _ => 5, 2, 1, 2⟩) (fun _ => ⟨fun _ => 0, 130, 1, 130⟩) 1).data
        (130 * 0 + (2 + 62)) = 160 :=
  (C3_chroma_overlay ⟨0, fun _ => 0⟩ ⟨3, 1⟩
    (fun _ => ⟨fun _ => 5, 2, 1, 2⟩) (fun _ => ⟨fun _ => 0, 130, 1, 130⟩) 1 0
    (Or.inl rfl) (by decide) (by decide) (by unfold Geometry; decide) (by decide)).1 62
    (by decide)

/-- C4 (gamma table): the table `classicInit` builds is non-decreasing,
`table[i] ≤ table[i+1]` for `i` in 0..254, with `table[0] = 16`,
`table[255] = 235`, and `table[i]` for `1 ≤ i ≤ 254` the floor of
`16.5 + 219 * (1 - e^(i*K))`, `K = ln(0.5/219)/255`. -/
theorem C4_gamma_table_monotone (d0 : ClassicData) :
    (∀ i, i ≤ 254 → (classicInit d0).exptab i ≤ (classicInit d0).exptab (i + 1)) ∧
    (classicInit d0).exptab 0 = 16 ∧
    (classicInit d0).exptab 255 = 235 ∧
    (∀ i : ℕ, 1 ≤ i → i ≤ 254 →
      ((classicInit d0).exptab i : ℤ)
        = ⌊(16.5 : ℝ) + 219 * (1 - Real.exp ((i : ℝ) * (Real.log (0.5 / 219) / 255)))⌋) := by
  refine ⟨fun i hi => ?_, ?_, ?_, fun i h1 h2 => ?_⟩
  · rw [classicInit_exptab, classicInit_exptab]
    rcases Nat.eq_zero_or_pos i with h0 | hpos
    · subst h0
      rw [if_pos rfl, if_neg (by norm_num), if_pos (by norm_num), gammaEntry_eq]
      exact gammaFloor_ge 1
    · rw [if_neg (by omega), if_pos (by omega), if_neg (by omega)]
      rcases Nat.lt_or_ge (i + 1) 255 with hlt | hge
      · rw [if_pos hlt]
        exact gammaEntry_mono (Nat.le_succ i)
      · rw [if_neg (by omega), if_pos (by omega), gammaEntry_eq]
        exact gammaFloor_le i
  · rw [classicInit_exptab, if_pos rfl]
  · rw [classicInit_exptab, if_neg (by norm_num), if_neg (by norm_num), if_pos rfl]
  · rw [classicInit_exptab, if_neg (by omega), if_pos (by omega), gammaEntry_eq,
      gammaFloor_eq_floor]

/-- C5 (clamp threshold): the `E167` that `classicInit` records lies in 1..254
and is the largest index `≤ 254` whose table value is `≤ 167`:
`table[E167] ≤ 167` and `table[j] > 167` for every `j` with `E167 < j ≤ 254`. -/
theorem C5_clamp_threshold (d0 : ClassicData) :
    1 ≤ (classicInit d0).E167 ∧ (classicInit d0).E167 ≤ 254 ∧
    (classicInit d0).exptab (classicInit d0).E167.toNat ≤ 167 ∧
    (∀ j : ℕ, (classicInit d0).E167 < (j : ℤ) → j ≤ 254 → 167 < (classicInit d0).exptab j) ∧
    (∀ j : ℕ, j ≤ 254 → (classicInit d0).exptab j ≤ 167 → (j : ℤ) ≤ (classicInit d0).E167) := by
  have hgt : ∀ j : ℕ, 49 < j → j ≤ 254 → 167 < (classicInit d0).exptab j := by
    intro j h1 h2
    rw [classicInit_exptab, if_neg (by omega), if_pos (by omega), gammaEntry_eq]
    have h := gammaFloor_mono (show 50 ≤ j by omega)
    rw [gammaFloor_50] at h
    omega
  rw [classicInit_E167]
  refine ⟨by norm_num, by norm_num, ?_, fun j h1 h2 => hgt j (by omega) h2, fun j h1 h2 => ?_⟩
  · exact classicInit_exptab_le_clamp d0 _ (by norm_num)
  · by_contra hc
    have := hgt j (by omega) h1
    omega

/-- C7 (end-to-end scenario): for a luma plane of width 4, height 1 with values
`[16, 16, 124, 235]` the histogram has 2 at bin 16, 1 at bin 124, 1 at bin
235 and 0 elsewhere; strip column 16 is `table[2]`, column 124 is
`table[min(E167, 1)] + 68` and column 235 is `table[1]`. -/
theorem C7_end_to_end (d0 : ClassicData) (fi : VSFormat) (src dst : ℕ → Plane)
    (hplanes : 0 < fi.numPlanes) (hw : (src 0).width = 4) (hh : (src 0).height = 1)
    (hgeom : Geometry 4 (src 0).stride (dst 0).stride 256)
    (h0 : (src 0).data 0 = 16) (h1 : (src 0).data 1 = 16)
    (h2 : (src 0).data 2 = 124) (h3 : (src 0).data 3 = 235) :
    (∀ v, lumaHist (classicInit d0) (src 0).data (src 0).stride (dst 0).data (dst 0).stride
        1 4 0 v
      = if v = 16 then 2 else if v = 124 then 1 else if v = 235 then 1 else 0) ∧
    (classicGetFrame (classicInit d0) fi src dst 0).data ((dst 0).stride * 0 + (4 + 16))
      = (classicInit d0).exptab 2 ∧
    (classicGetFrame (classicInit d0) fi src dst 0).data ((dst 0).stride * 0 + (4 + 124))
      = (classicInit d0).exptab (min (classicInit d0).E167 1).toNat + 68 ∧
    (classicGetFrame (classicInit d0) fi src dst 0).data ((dst 0).stride * 0 + (4 + 235))
      = (classicInit d0).exptab 1 := by
  have hg : Geometry (src 0).width (src 0).stride (dst 0).stride 256 := by
    rw [hw]
    exact hgeom
  have hstrip : ∀ x, x < 256 →
      (classicGetFrame (classicInit d0) fi src dst 0).data ((dst 0).stride * 0 + (4 + x))
        = lumaValue (classicInit d0)
            (if x = 16 then 2 else if x = 124 then 1 else if x = 235 then 1 else 0) x := by
    intro x hx
    have h := classicGetFrame_luma_strip d0 fi src dst 0 x hplanes hg (by omega) hx
    rw [hw, Nat.mul_zero (src 0).stride, buildHist_scenario _ h0 h1 h2 h3 x] at h
    exact h
  refine ⟨fun v => ?_, ?_, ?_, ?_⟩
  · rw [lumaHist_eq _ _ _ _ _ _ _ _ hgeom (by norm_num), Nat.mul_zero,
      buildHist_scenario _ h0 h1 h2 h3 v]
  · rw [hstrip 16 (by norm_num)]
    simp [lumaValue, MIN]
  · rw [hstrip 124 (by norm_num)]
    simp [lumaValue, MIN_eq_min]
  · rw [hstrip 235 (by norm_num)]
    simp [lumaValue, MIN]

/-- C7 at the concrete frame of the scenario (strides 4 and 260). -/
theorem C7_end_to_end_witness :
    (classicGetFrame (classicInit ⟨0, fun _ => 0⟩) ⟨1, 0⟩
        (fun _ => ⟨fun a => if a = 2 then 124 else if a = 3 then 235 else 16, 4, 1, 4⟩)
        (fun _ => ⟨fun _ => 0, 260, 1, 260⟩) 0).data (260 * 0 + (4 + 16))
      = (classicInit ⟨0, fun _ => 0⟩).exptab 2 :=
  (C7_end_to_end ⟨0, fun _ => 0⟩ ⟨1, 0⟩
    (fun _ => ⟨fun a => if a = 2 then 124 else if a = 3 then 235 else 16, 4, 1, 4⟩)
    (fun _ => ⟨fun _ => 0, 260, 1, 260⟩)
    (by decide) rfl rfl (by unfold Geometry; decide) rfl rfl rfl rfl).2.1

/-- C8 (chroma overlay independence): two source frames with the same plane
width and height (and the same format and subsampling) but arbitrary pixel
data, rendered into arbitrary fresh frames, get the same byte in every strip
column `w + k`, `k < 256 >> s`, of chroma plane `p`, in every pair of rows. -/
theorem C8_chroma_independence (d1 d2 : ClassicData) (fi : VSFormat)
    (src1 dst1 src2 dst2 : ℕ → Plane) (p y1 y2 k : ℕ)
    (hp12 : p = 1 ∨ p = 2) (hp : p < fi.numPlanes) (hs : fi.subSamplingW ≤ 8)
    (hw : (src1 p).width = (src2 p).width) (hh : (src1 p).height = (src2 p).height)
    (hg1 : Geometry (src1 p).width (src1 p).stride (dst1 p).stride (256 >>> fi.subSamplingW))
    (hg2 : Geometry (src2 p).width (src2 p).stride (dst2 p).stride (256 >>> fi.subSamplingW))
    (hy1 : y1 < (src1 p).height) (hy2 : y2 < (src1 p).height)
    (hk : k < 256 >>> fi.subSamplingW) :
    (classicGetFrame d1 fi src1 dst1 p).data ((dst1 p).stride * y1 + ((src1 p).width + k))
      = (classicGetFrame d2 fi src2 dst2 p).data
          ((dst2 p).stride * y2 + ((src1 p).width + k)) := by
  have hp0 : p ≠ 0 := by omega
  rw [classicGetFrame_data _ _ _ _ p hp, classicGetFrame_data _ _ _ _ p hp,
    renderPlane_chroma_strip d1 p _ _ _ _ _ _ _ hp0 hs hg1 y1 k hy1 hk, hw,
    renderPlane_chroma_strip d2 p _ _ _ _ _ _ _ hp0 hs hg2 y2 k (by omega) hk]

/-- C8 at two concrete frames: chroma plane 2 of width 2 and height 2, pixel
data all 5 against all 77, rows 0 and 1, strip column 3. -/
theorem C8_chroma_independence_witness :
    (classicGetFrame ⟨0, fun _ => 0⟩ ⟨3, 1⟩
        (fun _ => ⟨fun _ => 5, 2, 2, 2⟩) (fun _ => ⟨fun _ => 0, 130, 2, 130⟩) 2).data
        (130 * 0 + (2 + 3))
      = (classicGetFrame ⟨1, fun _ => 1⟩ ⟨3, 1⟩
        (fun _ => ⟨fun _ => 77, 2, 2, 2⟩) (fun _ => ⟨fun _ => 9, 130, 2, 130⟩) 2).data
        (130 * 1 + (2 + 3)) :=
  C8_chroma_independence ⟨0, fun _ => 0⟩ ⟨1, fun _ => 1⟩ ⟨3, 1⟩
    (fun _ => ⟨fun _ => 5, 2, 2, 2⟩) (fun _ => ⟨fun _ => 0, 130, 2, 130⟩)
    (fun _ => ⟨fun _ => 77, 2, 2, 2⟩) (fun _ => ⟨fun _ => 9, 130, 2, 130⟩) 2 0 1 3
    (Or.inr rfl) (by decide) (by decide) rfl rfl
    (by unfold Geometry; decide) (by unfold Geometry; decide)
    (by decide) (by decide) (by decide)

/-- C10 (no runtime errors in the lookups): whatever `E167` held before,
`classicInit` leaves the same clamp threshold, in 1..254, and for every
histogram count `≥ 0` both lookup indices `MIN(E167, count)` and
`MIN(255, count)` lie in 0..255. -/
theorem C10_lookup_in_bounds (d0 d0' : ClassicData) (count : ℤ) (hc : 0 ≤ count) :
    (classicInit d0).E167 = (classicInit d0').E167 ∧
    1 ≤ (classicInit d0).E167 ∧ (classicInit d0).E167 ≤ 254 ∧
    0 ≤ MIN (classicInit d0).E167 count ∧ MIN (classicInit d0).E167 count ≤ 255 ∧
    0 ≤ MIN 255 count ∧ MIN 255 count ≤ 255 := by
  rw [classicInit_E167, classicInit_E167, MIN_eq_min, MIN_eq_min]
  refine ⟨rfl, by norm_num, by norm_num, ?_, ?_, ?_, ?_⟩ <;> omega

/-- C10 at a concrete instance and count: garbage `E167 = -7` before
initialisation, count 1000. -/
theorem C10_lookup_in_bounds_witness :
    0 ≤ MIN (classicInit ⟨-7, fun _ => 0⟩).E167 1000 ∧
    MIN (classicInit ⟨-7, fun _ => 0⟩).E167 1000 ≤ 255 :=
  ⟨(C10_lookup_in_bounds ⟨-7, fun _ => 0⟩ ⟨3, fun _ => 1⟩ 1000 (by decide)).2.2.2.1,
    (C10_lookup_in_bounds ⟨-7, fun _ => 0⟩ ⟨3, fun _ => 1⟩ 1000 (by decide)).2.2.2.2.1⟩

/-- The test in `classicCreate` is the rejection condition of the specification. -/
theorem rejectsFormat_iff (vi : VSVideoInfo) : rejectsFormat vi = true ↔ UnsupportedFormat vi := by
  unfold rejectsFormat UnsupportedFormat
  cases hf : vi.format with
  | none => simp
  | some f => simp

/-- No wraparound when 256 is added to a C `int` that is at most `INT_MAX - 256`. -/
theorem wrapInt32_add_256 (w : ℤ) (hlo : -2147483648 ≤ w) (hhi : w ≤ 2147483647 - 256) :
    wrapInt32 (w + 256) = w + 256 := by
  unfold wrapInt32
  omega

/-- C11, the claim as stated fails: for an 8-bit integer format and source
width `INT_MAX = 2147483647` the filter is created, but not with width
`2147483647 + 256`; the instance data holds the wrapped width `-2147483393`. -/
theorem C11_counterexample :
    ¬ UnsupportedFormat ⟨some ⟨⟨3, 1⟩, VSSampleType.stInteger, 8⟩, 2147483647, 480⟩ ∧
    HostCall.createFilter ("Classic") NodeRef.clip
        ⟨some ⟨⟨3, 1⟩, VSSampleType.stInteger, 8⟩, 2147483647 + 256, 480⟩
      ∉ classicCreate ⟨some ⟨⟨3, 1⟩, VSSampleType.stInteger, 8⟩, 2147483647, 480⟩ ∧
    HostCall.createFilter ("Classic") NodeRef.clip
        ⟨some ⟨⟨3, 1⟩, VSSampleType.stInteger, 8⟩, -2147483393, 480⟩
      ∈ classicCreate ⟨some ⟨⟨3, 1⟩, VSSampleType.stInteger, 8⟩, 2147483647, 480⟩ := by
  refine ⟨fun h => ?_, ?_, ?_⟩
  · exact absurd ((rejectsFormat_iff _).2 h) (by decide)
  · simp [classicCreate, rejectsFormat, wrapInt32]
  · simp [classicCreate, rejectsFormat, wrapInt32]

/-- C11 as amended (construction-time validation): `classicCreate` sets the
error, releases the input node and creates no filter if and only if the source
format is undefined, or the sample type is not integer, or bits-per-sample is
not 8; otherwise it creates the filter `Classic` on the input node with height
and format unchanged and, when the source width is a C `int` of at most
`INT_MAX - 256`, with width increased by 256.  A 10-bit integer format is
rejected. -/
theorem C11_create_validation (vi : VSVideoInfo) :
    ((∃ msg, HostCall.setError msg ∈ classicCreate vi) ↔ UnsupportedFormat vi) ∧
    (HostCall.freeNode NodeRef.clip ∈ classicCreate vi ↔ UnsupportedFormat vi) ∧
    ((∀ name node v, HostCall.createFilter name node v ∉ classicCreate vi)
      ↔ UnsupportedFormat vi) ∧
    (¬ UnsupportedFormat vi →
      ∃ w, HostCall.createFilter ("Classic") NodeRef.clip
          { format := vi.format, width := w, height := vi.height }
        ∈ classicCreate vi) ∧
    (¬ UnsupportedFormat vi → -2147483648 ≤ vi.width → vi.width ≤ 2147483647 - 256 →
      HostCall.createFilter ("Classic") NodeRef.clip
          { format := vi.format, width := vi.width + 256, height := vi.height }
        ∈ classicCreate vi) ∧
    (∀ f : VSFormatDesc, vi.format = some f → f.bitsPerSample = 10 →
      classicCreate vi
        = [HostCall.setError ("Classic: only constant format 8bit integer input supported"),
            HostCall.freeNode NodeRef.clip]) := by
  have hiff := rejectsFormat_iff vi
  unfold classicCreate
  by_cases hr : rejectsFormat vi = true
  · have hu : UnsupportedFormat vi := hiff.1 hr
    rw [if_pos hr]
    refine ⟨?_, ?_, ?_, ?_, ?_, ?_⟩
    · exact ⟨fun _ => hu, fun _ => ⟨_, List.mem_cons_self _ _⟩⟩
    · exact ⟨fun _ => hu, fun _ => by simp⟩
    · exact ⟨fun _ => hu, fun _ name node v => by simp⟩
    · exact fun hn => absurd hu hn
    · exact fun hn => absurd hu hn
    · exact fun _ _ _ => rfl
  · have hu : ¬ UnsupportedFormat vi := fun h => hr (hiff.2 h)
    rw [if_neg hr]
    refine ⟨?_, ?_, ?_, ?_, ?_, ?_⟩
    · exact ⟨fun ⟨msg, hm⟩ => by simp at hm, fun h => absurd h hu⟩
    · exact ⟨fun hm => by simp at hm, fun h => absurd h hu⟩
    · refine ⟨fun h => absurd (List.mem_cons_self _ _) (h _ _ _), fun h => absurd h hu⟩
    · exact fun _ => ⟨_, List.mem_cons_self _ _⟩
    · intro _ hlo hhi
      rw [wrapInt32_add_256 vi.width hlo hhi]
      exact List.mem_cons_self _ _
    · intro f hf h10
      exact absurd (Or.inr ⟨f, hf, Or.inr (by rw [h10]; decide)⟩) hu

/-- C11 as amended, at a concrete clip: 8-bit integer 4:2:0 format, 720x480. -/
theorem C11_create_validation_witness :
    HostCall.createFilter ("Classic") NodeRef.clip
        ⟨some ⟨⟨3, 1⟩, VSSampleType.stInteger, 8⟩, 720 + 256, 480⟩
      ∈ classicCreate ⟨some ⟨⟨3, 1⟩, VSSampleType.stInteger, 8⟩, 720, 480⟩ :=
  (C11_create_validation ⟨some ⟨⟨3, 1⟩, VSSampleType.stInteger, 8⟩, 720, 480⟩).2.2.2.2.1
    (fun h => absurd ((rejectsFormat_iff _).2 h) (by decide)) (by decide) (by decide)

/-! ## Further facts on the table and the drawn values -/

theorem classicInit_exptab_ge (d : ClassicData) (j : ℕ) (hj : j ≤ 255) :
    16 ≤ (classicInit d).exptab j := by
  rw [classicInit_exptab]
  split_ifs
  · exact le_refl 16
  · rw [gammaEntry_eq]
    exact gammaFloor_ge j
  · norm_num
  · omega

theorem classicInit_exptab_mono (d : ClassicData) (i j : ℕ) (hij : i ≤ j) (hj : j ≤ 255) :
    (classicInit d).exptab i ≤ (classicInit d).exptab j := by
  rcases Nat.eq_zero_or_pos i with h0 | hpos
  · subst h0
    rw [classicInit_exptab d 0, if_pos rfl]
    exact classicInit_exptab_ge d j hj
  · rcases Nat.lt_or_ge j 255 with hlt | hge
    · rw [classicInit_exptab d i, classicInit_exptab d j, if_neg (by omega), if_pos (by omega),
        if_neg (by omega), if_pos hlt]
      exact gammaEntry_mono hij
    · have h255 : j = 255 := by omega
      subst h255
      rw [classicInit_exptab d 255, if_neg (by norm_num), if_neg (by norm_num), if_pos rfl]
      exact classicInit_exptab_le d i hij

theorem gammaFloor_48 : gammaFloor 48 = 165 := by decide

theorem classicInit_exptab_48 (d : ClassicData) : (classicInit d).exptab 48 = 165 := by
  rw [classicInit_exptab, if_neg (by norm_num), if_pos (by norm_num), gammaEntry_eq,
    gammaFloor_48]

theorem classicInit_exptab_49 (d : ClassicData) : (classicInit d).exptab 49 = 167 := by
  rw [classicInit_exptab, if_neg (by norm_num), if_pos (by norm_num), gammaEntry_eq,
    gammaFloor_49]

theorem classicInit_exptab_255 (d : ClassicData) : (classicInit d).exptab 255 = 235 := by
  rw [classicInit_exptab, if_neg (by norm_num), if_neg (by norm_num), if_pos rfl]

/-- The value assigned in an offset-branch column, with the data of `classicInit`. -/
theorem lumaValue_offset (d : ClassicData) (c : ℤ) (x : ℕ) (hx : x < 16 ∨ x = 124 ∨ x > 235) :
    lumaValue (classicInit d) c x = (classicInit d).exptab (min 49 c).toNat + 68 := by
  unfold lumaValue
  rw [if_pos hx, classicInit_E167, MIN_eq_min]

/-- The value assigned in a legal column, with the data of `classicInit`. -/
theorem lumaValue_legal (d : ClassicData) (c : ℤ) (x : ℕ) (hx : ¬ (x < 16 ∨ x = 124 ∨ x > 235)) :
    lumaValue (classicInit d) c x = (classicInit d).exptab (min 255 c).toNat := by
  unfold lumaValue
  rw [if_neg hx, MIN_eq_min]

/-- A frame holding only zero bytes is still all zero after the row copy. -/
theorem copyRows_zero (ss ds h a : ℕ) :
    copyRows (fun _ => 0) ss (fun _ => 0) ds h a = 0 := by
  unfold copyRows
  refine forLoop_invariant (fun _ (m : Mem) => ∀ b, m b = 0) 0 h _ _ (Nat.zero_le h)
    (fun _ => rfl) ?_ a
  intro n m _ _ ih b
  simp only [memcpy]
  split
  · rfl
  · exact ih b

/-- C12, the claim as stated fails: with `subSamplingW = 1` and chroma width
360 (strides 384 and 512, 240 rows), on a frame that is all zero before the
overlay, the adjacent strip columns 360 and 361 of chroma plane 1 both hold the
overlay value 200 afterwards, so the loop does not skip alternate columns. -/
theorem C12_counterexample :
    copyRows (fun _ => 0) 384 (fun _ => 0) 512 240 (512 * 0 + 360) = 0 ∧
    copyRows (fun _ => 0) 384 (fun _ => 0) 512 240 (512 * 0 + 361) = 0 ∧
    (classicGetFrame ⟨0, fun _ => 0⟩ ⟨3, 1⟩
        (fun _ => ⟨fun _ => 0, 384, 240, 360⟩) (fun _ => ⟨fun _ => 0, 512, 240, 488⟩) 1).data
        (512 * 0 + 360) = 200 ∧
    (classicGetFrame ⟨0, fun _ => 0⟩ ⟨3, 1⟩
        (fun _ => ⟨fun _ => 0, 384, 240, 360⟩) (fun _ => ⟨fun _ => 0, 512, 240, 488⟩) 1).data
        (512 * 0 + 361) = 200 := by
  refine ⟨copyRows_zero _ _ _ _, copyRows_zero _ _ _ _, ?_, ?_⟩
  · rw [classicGetFrame_data _ _ _ _ 1 (by decide)]
    exact renderPlane_chroma_strip _ 1 1 _ 384 _ 512 240 360 (by decide) (by decide)
      (by unfold Geometry; decide) 0 0 (by decide) (by decide)
  · rw [classicGetFrame_data _ _ _ _ 1 (by decide)]
    exact renderPlane_chroma_strip _ 1 1 _ 384 _ 512 240 360 (by decide) (by decide)
      (by unfold Geometry; decide) 0 1 (by decide) (by decide)

/-- C12 as amended: with `subSamplingW = 1` and chroma plane width 360 the
loop variable `x` takes every other value 0, 2, ..., 254 and writes destination
column `360 + (x >> 1)`, so every column `360 + k`, `k < 128`, of the strip
`[360, 488)` is written, with the value decided by `x = 2k`. -/
theorem C12_chroma_strip_subsampled (d : ClassicData) (fi : VSFormat) (src dst : ℕ → Plane)
    (p y k : ℕ) (hp12 : p = 1 ∨ p = 2) (hp : p < fi.numPlanes) (hs : fi.subSamplingW = 1)
    (hw : (src p).width = 360)
    (hgeom : Geometry 360 (src p).stride (dst p).stride 128)
    (hy : y < (src p).height) (hk : k < 128) :
    (classicGetFrame d fi src dst p).data ((dst p).stride * y + (360 + k))
      = if 2 * k < 16 ∨ 2 * k > 235 then (if p = 1 then 200 else 128)
        else if 2 * k = 124 then (if p = 1 then 160 else 16)
        else 128 := by
  have hp0 : p ≠ 0 := by omega
  have hsh : 256 >>> fi.subSamplingW = 128 := by rw [hs]; rfl
  have hg : Geometry (src p).width (src p).stride (dst p).stride (256 >>> fi.subSamplingW) := by
    rw [hw, hsh]
    exact hgeom
  have h := renderPlane_chroma_strip d p fi.subSamplingW (src p).data (src p).stride
    (dst p).data (dst p).stride (src p).height (src p).width hp0 (by omega) hg y k hy
    (by omega)
  rw [classicGetFrame_data _ _ _ _ p hp, ← hw, h, hs]
  have hk2 : k <<< 1 = 2 * k := by
    rw [Nat.shiftLeft_eq]
    omega
  rw [hk2]
  rfl

/-- C12 as amended, at the frame of the scenario: chroma plane 2, row 3, strip
column 361 (`k = 1`, `x = 2`). -/
theorem C12_chroma_strip_subsampled_witness :
    (classicGetFrame ⟨0, fun _ => 0⟩ ⟨3, 1⟩
        (fun _ => ⟨fun _ => 0, 384, 240, 360⟩) (fun _ => ⟨fun _ => 0, 512, 240, 488⟩) 2).data
        (512 * 3 + (360 + 1)) = 128 :=
  C12_chroma_strip_subsampled ⟨0, fun _ => 0⟩ ⟨3, 1⟩
    (fun _ => ⟨fun _ => 0, 384, 240, 360⟩) (fun _ => ⟨fun _ => 0, 512, 240, 488⟩) 2 3 1
    (Or.inr rfl) (by decide) rfl rfl (by unfold Geometry; decide) (by decide) (by decide)

/-- C13, the claim as stated fails: for the count 49 the value drawn in an
offset-branch column, `table[MIN(E167, 49)] + 68`, is not below `table[255]`;
both are 235. -/
theorem C13_counterexample :
    ¬ ((classicInit ⟨0, fun _ => 0⟩).exptab
          (MIN (classicInit ⟨0, fun _ => 0⟩).E167 49).toNat + 68
        < (classicInit ⟨0, fun _ => 0⟩).exptab 255) ∧
    lumaValue (classicInit ⟨0, fun _ => 0⟩) 49 0 = 235 := by
  have hv : lumaValue (classicInit ⟨0, fun _ => 0⟩) 49 0 = 235 := by
    rw [lumaValue_offset _ _ _ (Or.inl (by norm_num))]
    show (classicInit ⟨0, fun _ => 0⟩).exptab 49 + 68 = 235
    rw [classicInit_exptab_49]
  refine ⟨?_, hv⟩
  rw [classicInit_E167, MIN_eq_min, classicInit_exptab_255]
  show ¬ ((classicInit ⟨0, fun _ => 0⟩).exptab 49 + 68 < 235)
  rw [classicInit_exptab_49]
  decide

/-- C13 as amended: for every histogram count the value drawn in an
offset-branch column (`x < 16`, `x = 124` or `x > 235`) is at most the white
level 235 (`= table[255]`); it equals 235 for every count of at least 49
(the clamp threshold) and is below 235 for smaller counts. -/
theorem C13_offset_cap (d0 : ClassicData) (count : ℤ) (x : ℕ)
    (hx : x < 16 ∨ x = 124 ∨ x > 235) :
    lumaValue (classicInit d0) count x ≤ (classicInit d0).exptab 255 ∧
    (classicInit d0).exptab 255 = 235 ∧
    (49 ≤ count → lumaValue (classicInit d0) count x = 235) ∧
    (count < 49 → lumaValue (classicInit d0) count x < 235) := by
  rw [classicInit_exptab_255]
  refine ⟨lumaValue_classicInit_le d0 count x, rfl, fun h => ?_, fun h => ?_⟩
  · rw [lumaValue_offset d0 count x hx, min_eq_left h]
    show (classicInit d0).exptab 49 + 68 = 235
    rw [classicInit_exptab_49]
  · rw [lumaValue_offset d0 count x hx]
    have h1 := classicInit_exptab_mono d0 (min 49 count).toNat 48 (by omega) (by norm_num)
    rw [classicInit_exptab_48] at h1
    omega

/-- C13 as amended, at count 1000 in column 124. -/
theorem C13_offset_cap_witness :
    lumaValue (classicInit ⟨0, fun _ => 0⟩) 1000 124 = 235 :=
  (C13_offset_cap ⟨0, fun _ => 0⟩ 1000 124 (Or.inr (Or.inl rfl))).2.2.1 (by decide)

/-- The real value `16.5 + 219 * (1 - exp(i * K))` stays within `[16.5, 235.5)`. -/
theorem gammaExpr_bounds (i : ℕ) :
    (16.5 : ℝ) ≤ 16.5 + 219 * (1 - Real.exp ((i : ℝ) * (Real.log (0.5 / 219) / 255))) ∧
    (16.5 : ℝ) + 219 * (1 - Real.exp ((i : ℝ) * (Real.log (0.5 / 219) / 255))) < 235.5 := by
  have hlog : Real.log (0.5 / 219) < 0 := Real.log_neg (by norm_num) (by norm_num)
  have harg : (i : ℝ) * (Real.log (0.5 / 219) / 255) ≤ 0 :=
    mul_nonpos_of_nonneg_of_nonpos (Nat.cast_nonneg i) (by linarith)
  have h1 : Real.exp ((i : ℝ) * (Real.log (0.5 / 219) / 255)) ≤ 1 := Real.exp_le_one_iff.2 harg
  have h0 := Real.exp_pos ((i : ℝ) * (Real.log (0.5 / 219) / 255))
  constructor <;> linarith

/-- C14 (legal range of the luma strip): every gamma-table entry is in 16..235,
the value cast to 8 bits lies in `[16.5, 235.5)` so the cast does not
truncate, the offset-branch value `table[MIN(E167, count)] + 68` lies in
84..235 so the 8-bit store does not wrap, and every byte of the luma strip
lies in 16..235. -/
theorem C14_luma_strip_legal (d0 : ClassicData) (fi : VSFormat) (src dst : ℕ → Plane)
    (y x : ℕ) (hplanes : 0 < fi.numPlanes)
    (hgeom : Geometry (src 0).width (src 0).stride (dst 0).stride 256)
    (hy : y < (src 0).height) (hx : x < 256) :
    (∀ i, i ≤ 255 → 16 ≤ (classicInit d0).exptab i ∧ (classicInit d0).exptab i ≤ 235) ∧
    (∀ i : ℕ, 1 ≤ i → i ≤ 254 →
      (0 : ℝ) ≤ 16.5 + 219 * (1 - Real.exp ((i : ℝ) * (Real.log (0.5 / 219) / 255))) ∧
      (16.5 : ℝ) + 219 * (1 - Real.exp ((i : ℝ) * (Real.log (0.5 / 219) / 255))) < 256 ∧
      ((classicInit d0).exptab i : ℤ)
        = ⌊(16.5 : ℝ) + 219 * (1 - Real.exp ((i : ℝ) * (Real.log (0.5 / 219) / 255)))⌋) ∧
    (∀ count : ℤ, 0 ≤ count →
      84 ≤ (classicInit d0).exptab (MIN (classicInit d0).E167 count).toNat + 68 ∧
      (classicInit d0).exptab (MIN (classicInit d0).E167 count).toNat + 68 ≤ 235 ∧
      ((classicInit d0).exptab (MIN (classicInit d0).E167 count).toNat + 68) % 256
        = (classicInit d0).exptab (MIN (classicInit d0).E167 count).toNat + 68) ∧
    16 ≤ (classicGetFrame (classicInit d0) fi src dst 0).data
        ((dst 0).stride * y + ((src 0).width + x)) ∧
    (classicGetFrame (classicInit d0) fi src dst 0).data
        ((dst 0).stride * y + ((src 0).width + x)) ≤ 235 := by
  refine ⟨fun i hi => ⟨classicInit_exptab_ge d0 i hi, classicInit_exptab_le d0 i hi⟩,
    fun i h1 h2 => ?_, fun count _ => ?_, ?_, ?_⟩
  · obtain ⟨hlo, hhi⟩ := gammaExpr_bounds i
    refine ⟨by linarith, by linarith, ?_⟩
    rw [classicInit_exptab, if_neg (by omega), if_pos (by omega), gammaEntry_eq,
      gammaFloor_eq_floor]
  · rw [classicInit_E167, MIN_eq_min]
    have hlo := classicInit_exptab_ge d0 (min 49 count).toNat (by omega)
    have hhi := classicInit_exptab_le_clamp d0 (min 49 count).toNat (by omega)
    omega
  · rw [classicGetFrame_luma_strip d0 fi src dst y x hplanes hgeom hy hx]
    unfold lumaValue
    rw [classicInit_E167, MIN_eq_min, MIN_eq_min]
    split
    · have hlo := classicInit_exptab_ge d0
        (min 49 (buildHist (src 0).data ((src 0).stride * y) (src 0).width x)).toNat (by omega)
      omega
    · exact classicInit_exptab_ge d0 _ (by omega)
  · rw [classicGetFrame_luma_strip d0 fi src dst y x hplanes hgeom hy hx]
    exact lumaValue_classicInit_le d0 _ x

/-- C14 at a concrete frame: one luma row `[0, 0, 0]`, strip column 0. -/
theorem C14_luma_strip_legal_witness :
    16 ≤ (classicGetFrame (classicInit ⟨0, fun _ => 0⟩) ⟨1, 0⟩
        (fun _ => ⟨fun _ => 0, 3, 1, 3⟩) (fun _ => ⟨fun _ => 0, 259, 1, 259⟩) 0).data
        (259 * 0 + (3 + 0)) ∧
    (classicGetFrame (classicInit ⟨0, fun _ => 0⟩) ⟨1, 0⟩
        (fun _ => ⟨fun _ => 0, 3, 1, 3⟩) (fun _ => ⟨fun _ => 0, 259, 1, 259⟩) 0).data
        (259 * 0 + (3 + 0)) ≤ 235 :=
  (C14_luma_strip_legal ⟨0, fun _ => 0⟩ ⟨1, 0⟩
    (fun _ => ⟨fun _ => 0, 3, 1, 3⟩) (fun _ => ⟨fun _ => 0, 259, 1, 259⟩) 0 0
    (by decide) (by unfold Geometry; decide) (by decide) (by decide)).2.2.2

/-- C15 (monotone in the count): with the data of `classicInit`, for every
column `x` and counts `c1 ≤ c2` the byte drawn for `c1` is at most the byte
drawn for `c2`; in a legal column the byte is constant from count 255 on, in
an offset-branch column from count `E167` on. -/
theorem C15_monotone_in_count (d0 : ClassicData) (x : ℕ) (c1 c2 : ℤ) (h : c1 ≤ c2) :
    lumaValue (classicInit d0) c1 x % 256 ≤ lumaValue (classicInit d0) c2 x % 256 ∧
    (¬ (x < 16 ∨ x = 124 ∨ x > 235) → 255 ≤ c1 →
      lumaValue (classicInit d0) c1 x % 256 = lumaValue (classicInit d0) 255 x % 256) ∧
    ((x < 16 ∨ x = 124 ∨ x > 235) → (classicInit d0).E167 ≤ c1 →
      lumaValue (classicInit d0) c1 x % 256
        = lumaValue (classicInit d0) (classicInit d0).E167 x % 256) := by
  have hmod : ∀ c : ℤ, lumaValue (classicInit d0) c x % 256 = lumaValue (classicInit d0) c x :=
    fun c => Nat.mod_eq_of_lt (lt_of_le_of_lt (lumaValue_classicInit_le d0 c x) (by norm_num))
  simp only [hmod]
  refine ⟨?_, fun hx hc => ?_, fun hx hc => ?_⟩
  · by_cases hx : x < 16 ∨ x = 124 ∨ x > 235
    · rw [lumaValue_offset d0 c1 x hx, lumaValue_offset d0 c2 x hx]
      have := classicInit_exptab_mono d0 (min 49 c1).toNat (min 49 c2).toNat
        (by omega) (by omega)
      omega
    · rw [lumaValue_legal d0 c1 x hx, lumaValue_legal d0 c2 x hx]
      exact classicInit_exptab_mono d0 (min 255 c1).toNat (min 255 c2).toNat
        (by omega) (by omega)
  · rw [lumaValue_legal d0 c1 x hx, lumaValue_legal d0 255 x hx, min_eq_left hc, min_self]
  · rw [classicInit_E167] at hc ⊢
    rw [lumaValue_offset d0 c1 x hx, lumaValue_offset d0 49 x hx, min_eq_left hc, min_self]

/-- C15 at concrete counts 3 and 40 in the legal column 100. -/
theorem C15_monotone_in_count_witness :
    lumaValue (classicInit ⟨0, fun _ => 0⟩) 3 100 % 256
      ≤ lumaValue (classicInit ⟨0, fun _ => 0⟩) 40 100 % 256 :=
  (C15_monotone_in_count ⟨0, fun _ => 0⟩ 100 3 40 (by decide)).1

/-- For subsampling shifts 0, 1 and 2 the loop variable reaches 124 and the
marker is painted in strip column `124 >> s`. -/
theorem chroma_marker_painted (d : ClassicData) (plane subs : ℕ) (srcp : Mem) (ss : ℕ)
    (dstp : Mem) (ds h w : ℕ) (hp : plane ≠ 0) (hs : subs ≤ 2)
    (hgeom : Geometry w ss ds (256 >>> subs)) (y : ℕ) (hy : y < h) :
    renderPlane d plane subs srcp ss dstp ds h w (ds * y + (w + 124 >>> subs))
      = if plane = 1 then 160 else 16 := by
  have hk : 124 >>> subs < 256 >>> subs := by
    interval_cases subs <;> decide
  rw [renderPlane_chroma_strip d plane subs srcp ss dstp ds h w hp (by omega) hgeom y _ hy hk]
  have hx : (124 >>> subs) <<< subs = 124 := by
    interval_cases subs <;> decide
  rw [hx]
  rfl

/-- C16, the code at the failing inputs: with `subSamplingW = 3` (chroma width
45) strip column `45 + (124 >> 3)` holds 128 on plane 1 and on plane 2, and no
strip column of plane 1 holds the marker value 160; with `subSamplingW = 4`
(chroma width 22) strip column `22 + (124 >> 4)` of plane 1 holds 128. -/
theorem C16_marker_missing :
    (classicGetFrame ⟨0, fun _ => 0⟩ ⟨3, 3⟩
        (fun _ => ⟨fun _ => 0, 64, 1, 45⟩) (fun _ => ⟨fun _ => 0, 96, 1, 77⟩) 1).data
        (96 * 0 + (45 + 124 >>> 3)) = 128 ∧
    (classicGetFrame ⟨0, fun _ => 0⟩ ⟨3, 3⟩
        (fun _ => ⟨fun _ => 0, 64, 1, 45⟩) (fun _ => ⟨fun _ => 0, 96, 1, 77⟩) 2).data
        (96 * 0 + (45 + 124 >>> 3)) = 128 ∧
    (∀ k, k < 32 →
      (classicGetFrame ⟨0, fun _ => 0⟩ ⟨3, 3⟩
        (fun _ => ⟨fun _ => 0, 64, 1, 45⟩) (fun _ => ⟨fun _ => 0, 96, 1, 77⟩) 1).data
        (96 * 0 + (45 + k)) ≠ 160) ∧
    (classicGetFrame ⟨0, fun _ => 0⟩ ⟨3, 4⟩
        (fun _ => ⟨fun _ => 0, 32, 1, 22⟩) (fun _ => ⟨fun _ => 0, 64, 1, 38⟩) 1).data
        (64 * 0 + (22 + 124 >>> 4)) = 128 := by
  refine ⟨?_, ?_, fun k hk => ?_, ?_⟩
  · rw [classicGetFrame_data _ _ _ _ 1 (by decide)]
    exact renderPlane_chroma_strip _ 1 3 _ 64 _ 96 1 45 (by decide) (by decide)
      (by unfold Geometry; decide) 0 15 (by decide) (by decide)
  · rw [classicGetFrame_data _ _ _ _ 2 (by decide)]
    exact renderPlane_chroma_strip _ 2 3 _ 64 _ 96 1 45 (by decide) (by decide)
      (by unfold Geometry; decide) 0 15 (by decide) (by decide)
  · rw [classicGetFrame_data _ _ _ _ 1 (by decide)]
    have h := renderPlane_chroma_strip ⟨0, fun _ => 0⟩ 1 3 (fun _ => 0) 64 (fun _ => 0) 96 1 45
      (by decide) (by decide) (by unfold Geometry; decide) 0 k (by decide) hk
    show renderPlane _ 1 3 (fun _ => 0) 64 (fun _ => 0) 96 1 45 (96 * 0 + (45 + k)) ≠ 160
    rw [h]
    unfold chromaValue
    have hsh : k <<< 3 = 8 * k := by
      rw [Nat.shiftLeft_eq]
      omega
    rw [hsh]
    split_ifs <;> omega
  · rw [classicGetFrame_data _ _ _ _ 1 (by decide)]
    exact renderPlane_chroma_strip _ 1 4 _ 32 _ 64 1 22 (by decide) (by decide)
      (by unfold Geometry; decide) 0 7 (by decide) (by decide)

end Histogram
